import Mathlib

/-!
Verification of the Autoclipper persistent job queue and worker subsystem.

The definitions below are a shallow embedding of the job-store module
(SQLite-backed state store), the lock-file JSON store, and the queue worker
(retry policy, failure handling, download pipeline).  Timestamps are modelled
as natural numbers of milliseconds since the epoch; the store's ISO-8601
`created_at` strings order exactly like their numeric timestamps, so ordering
by `datetime(created_at)` is ordering by the numeric `createdAt` here.
Each store operation runs inside a `BEGIN IMMEDIATE` transaction (or under the
JSON store's exclusive lock file), so a concurrent execution linearizes into a
sequence of atomic operations; concurrency claims are stated over such
sequences.
-/

namespace Autoclipper

/-- A persisted job row, mirroring the `jobs` table: `metadata` and `output`
are kept as their serialized JSON text (`TEXT` columns), `availableAt` is the
nullable integer millisecond column. -/
structure Job where
  id : String
  tenantId : String
  sourceUri : String
  watermarkText : String
  maxDurationSeconds : Int
  variantCount : Int
  status : String
  createdAt : Nat
  updatedAt : Nat
  availableAt : Option Nat
  attempts : Nat
  errorMessage : Option String
  metadata : String
  output : Option String
deriving DecidableEq

/-- Job-claim eligibility: the `WHERE` clause of `takeNextQueuedJob`
(`status = 'queued' AND (available_at IS NULL OR available_at <= now)`),
identical to the JSON store's `isJobReady`. -/
def isJobReady (now : Nat) (job : Job) : Bool :=
  job.status == "queued" &&
    (match job.availableAt with
     | none => true
     | some t => decide (t ≤ now))

/-- The row picked by
`SELECT ... WHERE <ready> ORDER BY datetime(created_at) ASC LIMIT 1`:
an eligible row of minimal `createdAt`.  SQLite's tie-break among equal
`createdAt` values is engine-defined; the model keeps the earliest row. -/
def selectOldestEligible (now : Nat) : List Job → Option Job
  | [] => none
  | j :: rest =>
    if isJobReady now j then
      match selectOldestEligible now rest with
      | none => some j
      | some b => if b.createdAt < j.createdAt then some b else some j
    else selectOldestEligible now rest

/-- The `UPDATE jobs SET status = 'processing', attempts = attempts + 1,
available_at = NULL, updated_at = now WHERE id = ...` applied to the selected
row, which is also the copy the function returns. -/
def claimJob (now : Nat) (j : Job) : Job :=
  { j with
    status := "processing"
    attempts := j.attempts + 1
    availableAt := none
    updatedAt := now }

/-- `takeNextQueuedJob`: inside one `BEGIN IMMEDIATE` transaction, select the
oldest eligible row; if none, commit and return null leaving the store as is;
otherwise persist the claimed row and return a copy of it. -/
def takeNextQueuedJob (now : Nat) (s : List Job) : Option Job × List Job :=
  match selectOldestEligible now s with
  | none => (none, s)
  | some row =>
    let claimed := claimJob now row
    (some claimed, s.map fun j => if j.id == row.id then claimed else j)

/-- `computeRetryDelay` from the worker:
`min(retryBaseMs * 2 ** max(0, attempt - 1), downloadTimeoutMs * 4)`.
Natural subtraction `attempt - 1` is exactly `max(0, attempt - 1)`. -/
def computeRetryDelay (retryBaseMs downloadTimeoutMs attempt : Nat) : Nat :=
  min (retryBaseMs * 2 ^ (attempt - 1)) (downloadTimeoutMs * 4)

/-- A partial update, mirroring `buildUpdateStatement`: an outer `none` means
the field is absent from the patch (no `SET` assignment is emitted for it);
for `availableAt`, `errorMessage` and `output` the inner `Option` is the
SQL NULL. -/
structure JobPatch where
  status : Option String := none
  availableAt : Option (Option Nat) := none
  errorMessage : Option (Option String) := none
  metadata : Option String := none
  output : Option (Option String) := none
  attempts : Option Nat := none
  variantCount : Option Int := none
  maxDurationSeconds : Option Int := none
  sourceUri : Option String := none
  watermarkText : Option String := none
deriving DecidableEq

/-- `normalizeVariantCount`: non-numeric input defaults to 3, numeric input is
clamped into [1, 5]. -/
def normalizeVariantCount (value : Option Int) : Int :=
  match value with
  | none => 3
  | some v => min 5 (max 1 v)

/-- Whether `buildUpdateStatement` produced no assignments (in which case
`updateJob` performs no `UPDATE` and just re-reads the row). -/
def JobPatch.isEmpty (p : JobPatch) : Bool :=
  p.status.isNone && p.availableAt.isNone && p.errorMessage.isNone &&
  p.metadata.isNone && p.output.isNone && p.attempts.isNone &&
  p.variantCount.isNone && p.maxDurationSeconds.isNone &&
  p.sourceUri.isNone && p.watermarkText.isNone

/-- The effect of the `UPDATE jobs SET <assignments>, updated_at = now
WHERE id = ...` statement on one row. -/
def applyPatch (now : Nat) (p : JobPatch) (j : Job) : Job :=
  { j with
    status := p.status.getD j.status
    availableAt := match p.availableAt with | none => j.availableAt | some v => v
    errorMessage := match p.errorMessage with | none => j.errorMessage | some v => v
    metadata := p.metadata.getD j.metadata
    output := match p.output with | none => j.output | some v => v
    attempts := p.attempts.getD j.attempts
    variantCount := match p.variantCount with
      | none => j.variantCount
      | some v => normalizeVariantCount (some v)
    maxDurationSeconds := p.maxDurationSeconds.getD j.maxDurationSeconds
    sourceUri := p.sourceUri.getD j.sourceUri
    watermarkText := p.watermarkText.getD j.watermarkText
    updatedAt := now }

/-- `getJob`: `SELECT * FROM jobs WHERE id = ? LIMIT 1`. -/
def getJob (jobId : String) (s : List Job) : Option Job :=
  s.find? fun j => j.id == jobId

/-- `updateJob(id, patch)`: with an empty patch only re-read; otherwise apply
the update to every row with the given (primary-key) id and return the row
re-read afterwards. -/
def updateJob (now : Nat) (jobId : String) (p : JobPatch) (s : List Job) :
    Option Job × List Job :=
  if p.isEmpty then (getJob jobId s, s)
  else
    let s2 := s.map fun j => if j.id == jobId then applyPatch now p j else j
    (getJob jobId s2, s2)

/-- `errorMessage || null`: a missing or empty message is stored as NULL. -/
def normalizeErrorMessage (msg : Option String) : Option String :=
  match msg with
  | none => none
  | some m => if m.isEmpty then none else some m

/-- `requeueJob(id, delayMs, errorMessage)`: an `updateJob` setting
`status = 'queued'`, `availableAt = now + max(0, delayMs || 0)` and the
(falsy-normalized) error message. -/
def requeueJob (now : Nat) (jobId : String) (delayMs : Int)
    (msg : Option String) (s : List Job) : Option Job × List Job :=
  updateJob now jobId
    { status := some "queued"
      availableAt := some (some (now + (max 0 delayMs).toNat))
      errorMessage := some (normalizeErrorMessage msg) } s

/-- `finalizeJob(id, statusPatch)` forwards directly to `updateJob`. -/
def finalizeJob (now : Nat) (jobId : String) (p : JobPatch) (s : List Job) :
    Option Job × List Job :=
  updateJob now jobId p s

/-- Input accepted by `createJob`; the generated UUID is a parameter. -/
structure JobInput where
  tenantId : String
  sourceUri : String
  watermarkText : String
  maxDurationSeconds : Option Int
  variantCount : Option Int
  metadata : Option String

/-- `createJob`: builds the fresh row (`status = 'queued'`, `attempts = 0`,
`availableAt = now`, non-numeric `maxDurationSeconds` defaulting to 59) and
inserts it. -/
def createJob (now : Nat) (newId : String) (input : JobInput) (s : List Job) :
    Job × List Job :=
  let job : Job :=
    { id := newId
      tenantId := input.tenantId
      sourceUri := input.sourceUri
      watermarkText := input.watermarkText
      maxDurationSeconds := input.maxDurationSeconds.getD 59
      variantCount := normalizeVariantCount input.variantCount
      status := "queued"
      createdAt := now
      updatedAt := now
      availableAt := some now
      attempts := 0
      errorMessage := none
      metadata := (input.metadata.getD "{}")
      output := none }
  (job, s ++ [job])

/-- Ordering used by `listJobs`: `ORDER BY datetime(created_at) DESC`. -/
def jobNewer (a b : Job) : Prop := b.createdAt ≤ a.createdAt

instance : DecidableRel jobNewer := fun a b => Nat.decLe b.createdAt a.createdAt

instance : IsTotal Job jobNewer := ⟨fun a b => (Nat.le_total b.createdAt a.createdAt)⟩

instance : IsTrans Job jobNewer := ⟨fun _ _ _ h1 h2 => Nat.le_trans h2 h1⟩

/-- `listJobs(tenantId, limit)`:
`SELECT * FROM jobs WHERE tenant_id = ? ORDER BY datetime(created_at) DESC
LIMIT ?`. -/
def listJobs (tenantId : String) (limit : Nat) (s : List Job) : List Job :=
  (List.insertionSort jobNewer (s.filter fun j => j.tenantId == tenantId)).take limit

/-- N linearized invocations of `takeNextQueuedJob` at one instant: each call
runs inside its own exclusive transaction, so a race of N simultaneous callers
is a sequence of N atomic calls. Returns the list of per-call results and the
final store. -/
def takeMany (now : Nat) (s : List Job) : Nat → List (Option Job) × List Job
  | 0 => ([], s)
  | n + 1 =>
    let r := takeNextQueuedJob now s
    let rest := takeMany now r.2 n
    (r.1 :: rest.1, rest.2)

/-- The worker's decision on a failed job. -/
inductive FailureOutcome where
  | requeue (delayMs : Nat)
  | permanentFail
deriving DecidableEq

/-- The failure branch of `handleJob`: `attempts = job.attempts || 1`,
`canRetry = attempts < workerMaxRetries + 1`; retry with
`computeRetryDelay(attempts)` or finalize as permanently failed. -/
def handleJobFailure (maxRetries retryBaseMs downloadTimeoutMs : Nat)
    (jobAttempts : Nat) : FailureOutcome :=
  let attempts := if jobAttempts == 0 then 1 else jobAttempts
  if attempts < maxRetries + 1 then
    .requeue (computeRetryDelay retryBaseMs downloadTimeoutMs attempts)
  else .permanentFail

/-- The store effect of `handleJob`'s failure branch: `requeueJob` with the
computed delay, or `finalizeJob` with
`{status: 'failed', availableAt: null, errorMessage: message}`. -/
def handleJobFailureStore (maxRetries retryBaseMs downloadTimeoutMs now : Nat)
    (job : Job) (msg : String) (s : List Job) : List Job :=
  match handleJobFailure maxRetries retryBaseMs downloadTimeoutMs job.attempts with
  | .requeue delay => (requeueJob now job.id (Int.ofNat delay) (some msg) s).2
  | .permanentFail =>
    (finalizeJob now job.id
      { status := some "failed"
        availableAt := some none
        errorMessage := some (some msg) } s).2

/-- Substring test (`String.prototype.includes`). -/
def strContains (s pat : String) : Bool :=
  decide (pat.toList <:+: s.toList)

/-- `matchesAllowedType`: a falsy (missing/empty) content type is accepted;
otherwise the type must match `/^video\//i`, `/^audio\//i` or start with
`application/octet-stream` (case-insensitively). -/
def matchesAllowedType (contentType : String) : Bool :=
  if contentType.isEmpty then true
  else
    let lower := contentType.toLower
    lower.startsWith "video/" || lower.startsWith "audio/" ||
      lower.startsWith "application/octet-stream"

/-- `inferExtension`: maps the content type to a file extension, defaulting to
`.mp4` for a missing type and for anything unrecognized. -/
def inferExtension (contentType : String) : String :=
  if contentType.isEmpty then ".mp4"
  else
    let lower := contentType.toLower
    if strContains lower "mp4" then ".mp4"
    else if strContains lower "webm" then ".webm"
    else if strContains lower "quicktime" then ".mov"
    else if strContains lower "x-matroska" || strContains lower "matroska" then ".mkv"
    else if strContains lower "mpeg" then ".mpg"
    else if strContains lower "x-msvideo" then ".avi"
    else if strContains lower "ogg" then ".ogv"
    else if lower.startsWith "audio/" then ".mp3"
    else ".mp4"

/-- `createLimiter` composed with the write stream inside `pipeline`: chunks
(modelled by their byte length) are counted; the chunk that pushes the running
total over `maxBytes` triggers the limiter's error and is not forwarded to the
file, destroying the pipeline.  Returns the chunks actually written and the
error, if any. -/
def streamChunks (maxBytes : Nat) (total : Nat) :
    List Nat → List Nat × Option String
  | [] => ([], none)
  | c :: rest =>
    if total + c > maxBytes then ([], some "Download exceeded configured limit")
    else
      let r := streamChunks maxBytes (total + c) rest
      (c :: r.1, r.2)

/-- `streamResponseToFile`: pipe the body through the fresh limiter (running
total starts at 0) into the destination file. -/
def streamResponseToFile (maxBytes : Nat) (chunks : List Nat) :
    List Nat × Option String :=
  streamChunks maxBytes 0 chunks

/-- An HTTP response as `downloadRemote` observes it: `response.ok`, the
`content-type` header (absent → `none`), the `content-length` header after
`Number.parseInt` (absent or non-numeric → `none`, mirroring the
`Number.isFinite` guard), and the body chunk sizes. -/
structure RemoteResponse where
  ok : Bool
  contentType : Option String
  contentLengthHeader : Option Nat
  bodyChunks : List Nat
deriving DecidableEq

/-- Result of a `downloadRemote` call: the thrown error if any, the extension
chosen for the destination file (`none` when rejected before the destination
path is built), and the chunks written to the destination. -/
structure DownloadOutcome where
  error : Option String
  extension : Option String
  writtenChunks : List Nat
deriving DecidableEq

/-- Body phase of `downloadRemote`: pick the extension from the content type,
then stream into `source<extension>`. -/
def downloadBody (maxBytes : Nat) (contentType : String)
    (resp : RemoteResponse) : DownloadOutcome :=
  let ext := inferExtension contentType
  let r := streamResponseToFile maxBytes resp.bodyChunks
  { error := r.2, extension := some ext, writtenChunks := r.1 }

/-- `downloadRemote` header phase, in source order: reject non-ok statuses,
normalize a missing content type to the empty string, reject disallowed types,
reject a declared finite content length above the ceiling, and only then
stream the body. -/
def downloadRemote (maxBytes : Nat) (resp : RemoteResponse) : DownloadOutcome :=
  if !resp.ok then
    { error := some "Failed to download source", extension := none, writtenChunks := [] }
  else
    let contentType := resp.contentType.getD ""
    if !matchesAllowedType contentType then
      { error := some "Unsupported content type", extension := none, writtenChunks := [] }
    else
      match resp.contentLengthHeader with
      | some len =>
        if len > maxBytes then
          { error := some "Remote file exceeds configured size limit"
            extension := none, writtenChunks := [] }
        else downloadBody maxBytes contentType resp
      | none => downloadBody maxBytes contentType resp

/-! ### Lemmas about the claim-selection query -/

theorem selectOldestEligible_spec (now : Nat) (l : List Job) :
    (selectOldestEligible now l = none → ∀ j ∈ l, isJobReady now j = false) ∧
    (∀ b, selectOldestEligible now l = some b →
      b ∈ l ∧ isJobReady now b = true ∧
      ∀ j ∈ l, isJobReady now j = true → b.createdAt ≤ j.createdAt) := by
  induction l with
  | nil =>
    refine ⟨fun _ j hj => absurd hj (List.not_mem_nil j), fun b hb => ?_⟩
    simp [selectOldestEligible] at hb
  | cons a rest ih =>
    obtain ⟨ihn, ihs⟩ := ih
    by_cases ha : isJobReady now a = true
    · cases hr : selectOldestEligible now rest with
      | none =>
        have hrest := ihn hr
        constructor
        · intro h
          simp only [selectOldestEligible, ha, if_true, hr] at h
          exact Option.noConfusion h
        · intro b hb
          simp only [selectOldestEligible, ha, if_true, hr] at hb
          obtain rfl : a = b := Option.some.inj hb
          refine ⟨List.mem_cons_self _ _, ha, ?_⟩
          intro j hj hjr
          rcases List.mem_cons.mp hj with rfl | hj
          · exact Nat.le_refl _
          · exact absurd hjr (by simp [hrest j hj])
      | some c =>
        obtain ⟨hcmem, hcr, hcmin⟩ := ihs c hr
        constructor
        · intro h
          simp only [selectOldestEligible, ha, if_true, hr] at h
          split at h <;> exact Option.noConfusion h
        · intro b hb
          simp only [selectOldestEligible, ha, if_true, hr] at hb
          by_cases hlt : c.createdAt < a.createdAt
          · rw [if_pos hlt] at hb
            obtain rfl : c = b := Option.some.inj hb
            refine ⟨List.mem_cons_of_mem _ hcmem, hcr, ?_⟩
            intro j hj hjr
            rcases List.mem_cons.mp hj with rfl | hj
            · exact Nat.le_of_lt hlt
            · exact hcmin j hj hjr
          · rw [if_neg hlt] at hb
            obtain rfl : a = b := Option.some.inj hb
            refine ⟨List.mem_cons_self _ _, ha, ?_⟩
            intro j hj hjr
            rcases List.mem_cons.mp hj with rfl | hj
            · exact Nat.le_refl _
            · exact Nat.le_trans (Nat.le_of_not_lt hlt) (hcmin j hj hjr)
    · have heq : selectOldestEligible now (a :: rest) = selectOldestEligible now rest := by
        simp [selectOldestEligible, ha]
      constructor
      · intro h j hj
        rcases List.mem_cons.mp hj with rfl | hj
        · exact Bool.eq_false_iff.mpr (fun hc => ha hc)
        · exact ihn (heq ▸ h) j hj
      · intro b hb
        rw [heq] at hb
        obtain ⟨hm, hbr, hmin⟩ := ihs b hb
        refine ⟨List.mem_cons_of_mem _ hm, hbr, ?_⟩
        intro j hj hjr
        rcases List.mem_cons.mp hj with rfl | hj
        · exact absurd hjr ha
        · exact hmin j hj hjr

theorem selectOldestEligible_none (now : Nat) (l : List Job)
    (h : selectOldestEligible now l = none) :
    ∀ j ∈ l, isJobReady now j = false :=
  (selectOldestEligible_spec now l).1 h

theorem selectOldestEligible_some (now : Nat) (l : List Job) (b : Job)
    (h : selectOldestEligible now l = some b) :
    b ∈ l ∧ isJobReady now b = true ∧
      ∀ j ∈ l, isJobReady now j = true → b.createdAt ≤ j.createdAt :=
  (selectOldestEligible_spec now l).2 b h

theorem selectOldestEligible_isSome (now : Nat) (l : List Job) (j : Job)
    (hmem : j ∈ l) (hready : isJobReady now j = true) :
    (selectOldestEligible now l).isSome := by
  cases h : selectOldestEligible now l with
  | none => exact absurd hready (by simp [selectOldestEligible_none now l h j hmem])
  | some b => rfl

theorem selectOldestEligible_eq_none_of (now : Nat) (l : List Job)
    (h : ∀ j ∈ l, isJobReady now j = false) :
    selectOldestEligible now l = none := by
  cases hs : selectOldestEligible now l with
  | none => rfl
  | some b =>
    obtain ⟨hm, hr, _⟩ := selectOldestEligible_some now l b hs
    rw [h b hm] at hr
    exact Bool.noConfusion hr

theorem takeNextQueuedJob_of_none (now : Nat) (s : List Job)
    (h : selectOldestEligible now s = none) :
    takeNextQueuedJob now s = (none, s) := by
  simp [takeNextQueuedJob, h]

theorem takeNextQueuedJob_of_some (now : Nat) (s : List Job) (row : Job)
    (h : selectOldestEligible now s = some row) :
    takeNextQueuedJob now s =
      (some (claimJob now row),
        s.map fun j => if j.id == row.id then claimJob now row else j) := by
  simp [takeNextQueuedJob, h]

theorem claimJob_not_ready (now now2 : Nat) (j : Job) :
    isJobReady now2 (claimJob now j) = false := by
  simp [isJobReady, claimJob]

theorem takeMany_of_no_ready (now : Nat) (s : List Job) (n : Nat)
    (h : ∀ x ∈ s, isJobReady now x = false) :
    takeMany now s n = (List.replicate n none, s) := by
  induction n with
  | zero => rfl
  | succ m ih =>
    have hsel := selectOldestEligible_eq_none_of now s h
    simp [takeMany, takeNextQueuedJob_of_none now s hsel, ih, List.replicate_succ]

/-- A sample persisted job used to instantiate theorems at concrete inputs. -/
def sampleJob : Job :=
  { id := "job-1", tenantId := "tenant-1", sourceUri := "clip.mp4"
    watermarkText := "wm", maxDurationSeconds := 59, variantCount := 3
    status := "queued", createdAt := 0, updatedAt := 0, availableAt := none
    attempts := 0, errorMessage := none, metadata := "\x7b\x7d", output := none }

/-! ### Claim theorems -/

/-- C3: `computeRetryDelay(attempt)` equals
`min(baseDelayMs * 2^(attempt-1), cap)` with `cap = 4 * downloadTimeoutMs` for
every attempt ≥ 1; it is monotone in the attempt and never exceeds the cap. -/
theorem computeRetryDelay_correct (base timeout : Nat) :
    (∀ attempt, 1 ≤ attempt →
      computeRetryDelay base timeout attempt =
        min (base * 2 ^ (attempt - 1)) (timeout * 4)) ∧
    (∀ k, 1 ≤ k →
      computeRetryDelay base timeout k ≤ computeRetryDelay base timeout (k + 1)) ∧
    (∀ k, 1 ≤ k → computeRetryDelay base timeout k ≤ timeout * 4) := by
  refine ⟨fun _ _ => rfl, fun k hk => ?_, fun k _ => Nat.min_le_right _ _⟩
  unfold computeRetryDelay
  have h2 : (2 : Nat) ^ (k - 1) ≤ 2 ^ (k + 1 - 1) :=
    Nat.pow_le_pow_right (by norm_num) (by omega)
  exact min_le_min (Nat.mul_le_mul_left _ h2) (Nat.le_refl _)

/-- Witness for C3 at the default configuration (base 5000 ms, download
timeout 120000 ms), attempt 1. -/
theorem computeRetryDelay_correct_witness :
    computeRetryDelay 5000 120000 1 = min (5000 * 2 ^ 0) (120000 * 4) ∧
    computeRetryDelay 5000 120000 1 ≤ computeRetryDelay 5000 120000 2 ∧
    computeRetryDelay 5000 120000 1 ≤ 120000 * 4 := by
  have h := computeRetryDelay_correct 5000 120000
  exact ⟨h.1 1 (by decide), h.2.1 1 (by decide), h.2.2 1 (by decide)⟩

/-- C2: `takeNextQueuedJob` returns null and leaves the store unchanged
exactly when no job is eligible; otherwise it claims an eligible job of
minimal `createdAt`, marking it `processing`, incrementing `attempts` by one,
clearing `availableAt`, persisting the change and returning the updated
copy. -/
theorem takeNextQueuedJob_correct (now : Nat) (s : List Job) :
    ((takeNextQueuedJob now s).1 = none →
      (takeNextQueuedJob now s).2 = s ∧ ∀ j ∈ s, isJobReady now j = false) ∧
    ((∃ j ∈ s, isJobReady now j = true) → ((takeNextQueuedJob now s).1).isSome) ∧
    (∀ r, (takeNextQueuedJob now s).1 = some r →
      ∃ j ∈ s, isJobReady now j = true ∧
        (∀ j2 ∈ s, isJobReady now j2 = true → j.createdAt ≤ j2.createdAt) ∧
        r = claimJob now j ∧ r.status = "processing" ∧
        r.attempts = j.attempts + 1 ∧ r.availableAt = none ∧
        (takeNextQueuedJob now s).2 =
          s.map fun x => if x.id == j.id then claimJob now j else x) := by
  cases hsel : selectOldestEligible now s with
  | none =>
    have hnone := takeNextQueuedJob_of_none now s hsel
    refine ⟨fun _ => ⟨by rw [hnone], selectOldestEligible_none now s hsel⟩, ?_, ?_⟩
    · rintro ⟨j, hj, hr⟩
      have := selectOldestEligible_eq_none_of now s
      exact absurd hr (by simp [selectOldestEligible_none now s hsel j hj])
    · intro r hr
      rw [hnone] at hr
      exact Option.noConfusion hr
  | some row =>
    obtain ⟨hmem, hready, hmin⟩ := selectOldestEligible_some now s row hsel
    have hsome := takeNextQueuedJob_of_some now s row hsel
    refine ⟨fun h => ?_, fun _ => by rw [hsome]; rfl, fun r hr => ?_⟩
    · rw [hsome] at h
      exact Option.noConfusion h
    · rw [hsome] at hr
      obtain rfl : claimJob now row = r := Option.some.inj hr
      exact ⟨row, hmem, hready, hmin, rfl, rfl, rfl, rfl, by rw [hsome]⟩

/-- Witness for C2: a one-job store where the job is claimed. -/
theorem takeNextQueuedJob_correct_witness :
    ∃ j ∈ [sampleJob], isJobReady 5 j = true ∧
      (∀ j2 ∈ [sampleJob], isJobReady 5 j2 = true → j.createdAt ≤ j2.createdAt) ∧
      claimJob 5 sampleJob = claimJob 5 j ∧ (claimJob 5 sampleJob).status = "processing" ∧
      (claimJob 5 sampleJob).attempts = j.attempts + 1 ∧
      (claimJob 5 sampleJob).availableAt = none ∧
      (takeNextQueuedJob 5 [sampleJob]).2 =
        [sampleJob].map fun x => if x.id == j.id then claimJob 5 j else x := by
  exact (takeNextQueuedJob_correct 5 [sampleJob]).2.2 (claimJob 5 sampleJob) (by rfl)

/-- C1: with exactly one eligible job in the store, N linearized concurrent
invocations of `takeNextQueuedJob` (each call is one exclusive transaction)
yield that job, transitioned to `processing`, for exactly one caller; every
other caller gets null.  In particular no job is ever claimed twice. -/
theorem takeNextQueuedJob_exactly_once (now : Nat) (s : List Job) (j0 : Job)
    (N : Nat) (hN : 1 ≤ N) (hmem : j0 ∈ s) (hready : isJobReady now j0 = true)
    (huniq : ∀ j ∈ s, isJobReady now j = true → j = j0) :
    (takeMany now s N).1 =
      some (claimJob now j0) :: List.replicate (N - 1) none := by
  obtain ⟨n, rfl⟩ : ∃ n, N = n + 1 := ⟨N - 1, by omega⟩
  have hsel : selectOldestEligible now s = some j0 := by
    cases hs : selectOldestEligible now s with
    | none =>
      exact absurd hready (by simp [selectOldestEligible_none now s hs j0 hmem])
    | some b =>
      obtain ⟨hm, hr, _⟩ := selectOldestEligible_some now s b hs
      rw [huniq b hm hr]
  have htake := takeNextQueuedJob_of_some now s j0 hsel
  have hnone : ∀ x ∈ s.map (fun y => if y.id == j0.id then claimJob now j0 else y),
      isJobReady now x = false := by
    intro x hx
    rw [List.mem_map] at hx
    obtain ⟨y, hy, rfl⟩ := hx
    by_cases hid : (y.id == j0.id) = true
    · simp [hid, claimJob_not_ready]
    · rw [if_neg hid]
      by_cases hyr : isJobReady now y = true
      · obtain rfl := huniq y hy hyr
        simp at hid
      · exact Bool.eq_false_iff.mpr hyr
  have hrest1 : (takeMany now
      (s.map fun y => if y.id == j0.id then claimJob now j0 else y) n).1 =
      List.replicate n none := by
    rw [takeMany_of_no_ready now _ n hnone]
  calc (takeMany now s (n + 1)).1
      = (takeNextQueuedJob now s).1 ::
          (takeMany now (takeNextQueuedJob now s).2 n).1 := rfl
    _ = some (claimJob now j0) ::
          (takeMany now
            (s.map fun y => if y.id == j0.id then claimJob now j0 else y) n).1 := by
        rw [htake]
    _ = some (claimJob now j0) :: List.replicate n none := by rw [hrest1]
    _ = some (claimJob now j0) :: List.replicate (n + 1 - 1) none := by
        rw [Nat.add_sub_cancel]

/-- Witness for C1: a one-job store raced by three callers; the first caller
claims the job, the other two get null. -/
theorem takeNextQueuedJob_exactly_once_witness :
    (takeMany 5 [sampleJob] 3).1 =
      some (claimJob 5 sampleJob) :: List.replicate 2 none := by
  exact takeNextQueuedJob_exactly_once 5 [sampleJob] sampleJob 3 (by decide)
    (List.mem_singleton.mpr rfl) (by decide)
    (fun j hj _ => List.mem_singleton.mp hj)

/-- A job whose retry budget is exhausted (claimed three times). -/
def exhaustedJob : Job :=
  { sampleJob with id := "job-2", status := "processing", attempts := 3 }

/-- C4: once a job's `attempts` exceeds `maxRetries + 1`, the worker's failure
handling never requeues it but finalizes it as `failed`, and
`takeNextQueuedJob` only ever claims rows whose prior status is `queued`, so a
`failed` job is never returned again. -/
theorem jobFailure_terminal (maxRetries base timeout now : Nat) (job : Job)
    (msg : String) (s : List Job) (h : job.attempts > maxRetries + 1) :
    handleJobFailure maxRetries base timeout job.attempts =
      FailureOutcome.permanentFail ∧
    (∀ x ∈ handleJobFailureStore maxRetries base timeout now job msg s,
      x.id = job.id → x.status = "failed") ∧
    (∀ (now2 : Nat) (s2 : List Job) (r : Job),
      (takeNextQueuedJob now2 s2).1 = some r →
      ∃ jq ∈ s2, jq.status = "queued" ∧ r = claimJob now2 jq) := by
  have hcond : ¬ (job.attempts == 0) = true := by simp; omega
  have hinner : (if (job.attempts == 0) = true then 1 else job.attempts) =
      job.attempts := if_neg hcond
  have hfail : handleJobFailure maxRetries base timeout job.attempts =
      FailureOutcome.permanentFail := by
    simp only [handleJobFailure, hinner]
    rw [if_neg (by omega : ¬ job.attempts < maxRetries + 1)]
  refine ⟨hfail, ?_, ?_⟩
  · intro x hx hid
    rw [handleJobFailureStore, hfail] at hx
    simp only [finalizeJob, updateJob] at hx
    rw [if_neg (by simp [JobPatch.isEmpty] : ¬ JobPatch.isEmpty
      { status := some "failed", availableAt := some none,
        errorMessage := some (some msg) } = true)] at hx
    simp only [List.mem_map] at hx
    obtain ⟨y, hy, rfl⟩ := hx
    by_cases hidy : (y.id == job.id) = true
    · rw [if_pos hidy]
      rfl
    · rw [if_neg hidy] at hid ⊢
      exact absurd (by simp [hid]) hidy
  · intro now2 s2 r hr
    cases hsel : selectOldestEligible now2 s2 with
    | none =>
      rw [takeNextQueuedJob_of_none now2 s2 hsel] at hr
      exact absurd hr (by simp)
    | some row =>
      obtain ⟨hm, hready, _⟩ := selectOldestEligible_some now2 s2 row hsel
      rw [takeNextQueuedJob_of_some now2 s2 row hsel] at hr
      obtain rfl : claimJob now2 row = r := Option.some.inj hr
      refine ⟨row, hm, ?_, rfl⟩
      simp [isJobReady] at hready
      exact hready.1

/-- Witness for C4: `maxRetries = 1`, a job on its third attempt is finalized
as failed, never requeued. -/
theorem jobFailure_terminal_witness :
    handleJobFailure 1 5000 120000 exhaustedJob.attempts =
      FailureOutcome.permanentFail ∧
    (handleJobFailureStore 1 5000 120000 50 exhaustedJob "boom"
        [exhaustedJob]).map Job.status = ["failed"] := by
  have h := jobFailure_terminal 1 5000 120000 50 exhaustedJob "boom"
    [exhaustedJob] (by decide)
  exact ⟨h.1, by decide⟩

/-- A job belonging to a different tenant. -/
def otherTenantJob : Job :=
  { sampleJob with id := "job-3", tenantId := "tenant-2", createdAt := 10 }

/-- C7: `listJobs(tenantId, limit)` returns only that tenant's jobs, ordered
newest-created-first, and never more than `limit` of them. -/
theorem listJobs_correct (t : String) (lim : Nat) (s : List Job) :
    (∀ j ∈ listJobs t lim s, j.tenantId = t) ∧
    (listJobs t lim s).length ≤ lim ∧
    (listJobs t lim s).Sorted jobNewer := by
  refine ⟨?_, ?_, ?_⟩
  · intro j hj
    unfold listJobs at hj
    have h1 : j ∈ List.insertionSort jobNewer
        (s.filter fun x => x.tenantId == t) := List.take_subset _ _ hj
    have h2 : j ∈ s.filter fun x => x.tenantId == t :=
      (List.perm_insertionSort jobNewer _).mem_iff.mp h1
    have h3 := List.mem_filter.mp h2
    simpa using h3.2
  · unfold listJobs
    rw [List.length_take]
    exact min_le_left _ _
  · unfold listJobs
    exact List.Pairwise.sublist (List.take_sublist _ _)
      (List.sorted_insertionSort jobNewer _)

/-- Witness for C7 on a two-tenant store. -/
theorem listJobs_correct_witness :
    sampleJob.tenantId = "tenant-1" ∧
    (listJobs "tenant-1" 5 [sampleJob, otherTenantJob]).length ≤ 5 := by
  have h := listJobs_correct "tenant-1" 5 [sampleJob, otherTenantJob]
  exact ⟨h.1 sampleJob (by decide), h.2.1⟩

/-- An older queued competitor job (claimable immediately). -/
def competitorJob : Job := { sampleJob with id := "job-a", createdAt := 0 }

/-- A younger job that just failed its first attempt (`processing`). -/
def failedAttemptJob : Job :=
  { sampleJob with
    id := "job-j"
    createdAt := 5
    status := "processing"
    attempts := 1 }


/-- The store after requeueing `failedAttemptJob` at time 10 with no delay,
while `competitorJob` is still queued. -/
def requeuedStore : List Job :=
  (requeueJob 10 "job-j" 0 (some "tmp") [competitorJob, failedAttemptJob]).2

/-- Counterexample to C5 as stated: after `requeueJob("job-j", 0, "tmp")` at
time 10 the requeued job is eligible (`availableAt = 10`), yet the first claim
issued at that very time returns the older queued job `job-a`, not `job-j`. -/
theorem requeueJob_first_claim_counterexample :
    (getJob "job-j" requeuedStore).map Job.availableAt = some (some 10) ∧
    (takeNextQueuedJob 10 requeuedStore).1.map Job.id = some "job-a" ∧
    ¬ ((takeNextQueuedJob 10 requeuedStore).1.map Job.id = some "job-j") := by
  decide

/-- C5 (amended): after `requeueJob(id, delayMs, msg)` the job keeps existing
with `status = 'queued'`, `availableAt = now + max(0, delayMs)`, the
(falsy-normalized) error message recorded and `attempts` untouched; no claim
issued before `availableAt` returns it; at or after `availableAt` it is
eligible again, and a claim that selects it returns it with `attempts`
incremented by exactly one. -/
theorem requeueJob_delay_enforcement (now : Nat) (jobId : String)
    (delayMs : Int) (msg : Option String) (s : List Job) (j : Job)
    (hmem : j ∈ s) (hid : j.id = jobId) :
    (∃ x ∈ (requeueJob now jobId delayMs msg s).2, x.id = jobId) ∧
    (∀ x ∈ (requeueJob now jobId delayMs msg s).2, x.id = jobId →
      x.status = "queued" ∧
      x.availableAt = some (now + (max 0 delayMs).toNat) ∧
      x.errorMessage = normalizeErrorMessage msg ∧
      ∃ y ∈ s, y.id = jobId ∧ x.attempts = y.attempts) ∧
    (∀ t, t < now + (max 0 delayMs).toNat →
      ∀ r, (takeNextQueuedJob t (requeueJob now jobId delayMs msg s).2).1 = some r →
        r.id ≠ jobId) ∧
    (∀ t, now + (max 0 delayMs).toNat ≤ t →
      ∀ x ∈ (requeueJob now jobId delayMs msg s).2, x.id = jobId →
        isJobReady t x = true) ∧
    (∀ t row, selectOldestEligible t (requeueJob now jobId delayMs msg s).2 = some row →
      (takeNextQueuedJob t (requeueJob now jobId delayMs msg s).2).1 =
        some (claimJob t row) ∧
      (claimJob t row).attempts = row.attempts + 1) := by
  set p : JobPatch :=
    { status := some "queued"
      availableAt := some (some (now + (max 0 delayMs).toNat))
      errorMessage := some (normalizeErrorMessage msg) } with hp
  have hnotempty : ¬ p.isEmpty = true := by rw [hp]; simp [JobPatch.isEmpty]
  have hstore : (requeueJob now jobId delayMs msg s).2 =
      s.map fun y => if y.id == jobId then applyPatch now p y else y := by
    rw [requeueJob, updateJob, if_neg hnotempty]
  have hfields : ∀ x ∈ (requeueJob now jobId delayMs msg s).2, x.id = jobId →
      x.status = "queued" ∧
      x.availableAt = some (now + (max 0 delayMs).toNat) ∧
      x.errorMessage = normalizeErrorMessage msg ∧
      ∃ y ∈ s, y.id = jobId ∧ x.attempts = y.attempts := by
    intro x hx hxid
    rw [hstore, List.mem_map] at hx
    obtain ⟨y, hy, rfl⟩ := hx
    by_cases hbe : (y.id == jobId) = true
    · rw [if_pos hbe]
      exact ⟨rfl, rfl, rfl, y, hy, by simpa using hbe, rfl⟩
    · rw [if_neg hbe] at hxid
      exact absurd (by simp [hxid]) hbe
  refine ⟨?_, hfields, ?_, ?_, ?_⟩
  · refine ⟨applyPatch now p j, ?_, ?_⟩
    · rw [hstore, List.mem_map]
      exact ⟨j, hmem, by rw [if_pos (by simp [hid])]⟩
    · simpa [applyPatch] using hid
  · intro t ht r hr
    cases hsel : selectOldestEligible t (requeueJob now jobId delayMs msg s).2 with
    | none =>
      rw [takeNextQueuedJob_of_none _ _ hsel] at hr
      exact absurd hr (by simp)
    | some row =>
      obtain ⟨hm, hready, _⟩ := selectOldestEligible_some _ _ row hsel
      rw [takeNextQueuedJob_of_some _ _ row hsel] at hr
      obtain rfl : claimJob t row = r := Option.some.inj hr
      intro hrid
      have hrowid : row.id = jobId := hrid
      obtain ⟨_, havail, _, _⟩ := hfields row hm hrowid
      rw [isJobReady, havail] at hready
      simp at hready
      omega
  · intro t ht x hx hxid
    obtain ⟨hst, havail, _, _⟩ := hfields x hx hxid
    rw [isJobReady, hst, havail]
    simp [ht]
  · intro t row hsel
    rw [takeNextQueuedJob_of_some _ _ row hsel]
    exact ⟨rfl, rfl⟩

/-- Witness for C5 (amended) on a singleton store: the requeued job is blocked
at time 59 and claimable at time 60 with `attempts` going from 1 to 2. -/
theorem requeueJob_delay_enforcement_witness :
    (∃ x ∈ (requeueJob 10 "job-j" 50 (some "tmp") [failedAttemptJob]).2,
      x.id = "job-j") ∧
    (∀ x ∈ (requeueJob 10 "job-j" 50 (some "tmp") [failedAttemptJob]).2,
      x.id = "job-j" →
      x.status = "queued" ∧
      x.availableAt = some (10 + (max 0 (50 : Int)).toNat) ∧
      x.errorMessage = normalizeErrorMessage (some "tmp") ∧
      ∃ y ∈ [failedAttemptJob], y.id = "job-j" ∧ x.attempts = y.attempts) ∧
    (∀ t, t < 10 + (max 0 (50 : Int)).toNat →
      ∀ r, (takeNextQueuedJob t
          (requeueJob 10 "job-j" 50 (some "tmp") [failedAttemptJob]).2).1 = some r →
        r.id ≠ "job-j") ∧
    (∀ t, 10 + (max 0 (50 : Int)).toNat ≤ t →
      ∀ x ∈ (requeueJob 10 "job-j" 50 (some "tmp") [failedAttemptJob]).2,
        x.id = "job-j" → isJobReady t x = true) ∧
    (∀ t row, selectOldestEligible t
        (requeueJob 10 "job-j" 50 (some "tmp") [failedAttemptJob]).2 = some row →
      (takeNextQueuedJob t
          (requeueJob 10 "job-j" 50 (some "tmp") [failedAttemptJob]).2).1 =
        some (claimJob t row) ∧
      (claimJob t row).attempts = row.attempts + 1) := by
  exact requeueJob_delay_enforcement 10 "job-j" 50 (some "tmp")
    [failedAttemptJob] failedAttemptJob (List.mem_singleton.mpr rfl) rfl

theorem updateJob_map_attempts (now : Nat) (jobId : String) (p : JobPatch)
    (s : List Job) (hp : p.attempts = none) :
    ((updateJob now jobId p s).2).map Job.attempts = s.map Job.attempts := by
  unfold updateJob
  by_cases he : p.isEmpty = true
  · rw [if_pos he]
  · rw [if_neg he]
    simp only [List.map_map]
    apply List.map_congr_left
    intro y _
    by_cases hid : (y.id == jobId) = true
    · simp [Function.comp, hid, applyPatch, hp]
    · simp [Function.comp, hid]

/-- The store `[sampleJob]` after its job is claimed once (`attempts = 1`). -/
def claimedOnceStore : List Job := (takeNextQueuedJob 0 [sampleJob]).2

/-- The same store after `updateJob("job-1", {attempts: 0})`. -/
def attemptsPatchedStore : List Job :=
  (updateJob 1 "job-1" { attempts := some 0 } claimedOnceStore).2

/-- Counterexample to C6 as stated: `updateJob` is one of the listed JobStore
operations, and a patch `{attempts: 0}` drops a claimed job's `attempts` from
1 back to 0, so `attempts` is not non-decreasing under every operation. -/
theorem attempts_monotonic_counterexample :
    claimedOnceStore.map Job.attempts = [1] ∧
    attemptsPatchedStore.map Job.attempts = [0] := by
  decide

/-- C6 (amended): each successful claim increments the claimed job's
`attempts` by exactly 1 and touches no other job; `createJob`, `requeueJob`
and any `updateJob`/`finalizeJob` whose patch does not explicitly set the
`attempts` field leave every job's `attempts` unchanged.  Only a patch that
explicitly sets `attempts` can decrease it. -/
theorem attempts_monotonic_amended :
    (∀ (now : Nat) (s : List Job) (row : Job),
      selectOldestEligible now s = some row →
      (takeNextQueuedJob now s).1 = some (claimJob now row) ∧
      (claimJob now row).attempts = row.attempts + 1 ∧
      ∀ x ∈ (takeNextQueuedJob now s).2, x = claimJob now row ∨ x ∈ s) ∧
    (∀ (now : Nat) (jobId : String) (p : JobPatch) (s : List Job),
      p.attempts = none →
      ((updateJob now jobId p s).2).map Job.attempts = s.map Job.attempts) ∧
    (∀ (now : Nat) (jobId : String) (delayMs : Int) (msg : Option String)
        (s : List Job),
      ((requeueJob now jobId delayMs msg s).2).map Job.attempts =
        s.map Job.attempts) ∧
    (∀ (now : Nat) (jobId : String) (p : JobPatch) (s : List Job),
      p.attempts = none →
      ((finalizeJob now jobId p s).2).map Job.attempts = s.map Job.attempts) ∧
    (∀ (now : Nat) (newId : String) (input : JobInput) (s : List Job),
      ((createJob now newId input s).2).map Job.attempts =
        s.map Job.attempts ++ [0]) := by
  refine ⟨?_, updateJob_map_attempts, ?_, ?_, ?_⟩
  · intro now s row hsel
    rw [takeNextQueuedJob_of_some now s row hsel]
    refine ⟨rfl, rfl, ?_⟩
    intro x hx
    simp only [List.mem_map] at hx
    obtain ⟨y, hy, rfl⟩ := hx
    by_cases hid : (y.id == row.id) = true
    · rw [if_pos hid]
      exact Or.inl rfl
    · rw [if_neg hid]
      exact Or.inr hy
  · intro now jobId delayMs msg s
    exact updateJob_map_attempts now jobId _ s rfl
  · intro now jobId p s hp
    exact updateJob_map_attempts now jobId p s hp
  · intro now newId input s
    simp [createJob]

/-- Witness for C6 (amended): a concrete claim increments `attempts`, and a
status-only patch preserves it. -/
theorem attempts_monotonic_amended_witness :
    ((takeNextQueuedJob 5 [sampleJob]).1 = some (claimJob 5 sampleJob) ∧
      (claimJob 5 sampleJob).attempts = sampleJob.attempts + 1 ∧
      ∀ x ∈ (takeNextQueuedJob 5 [sampleJob]).2,
        x = claimJob 5 sampleJob ∨ x ∈ [sampleJob]) ∧
    ((updateJob 6 "job-1" { status := some "completed" } [sampleJob]).2).map
        Job.attempts = [sampleJob].map Job.attempts := by
  have h := attempts_monotonic_amended
  exact ⟨h.1 5 [sampleJob] sampleJob (by decide),
    h.2.1 6 "job-1" { status := some "completed" } [sampleJob] rfl⟩

/-! ### Download pipeline -/

theorem streamChunks_over (m : Nat) (l : List Nat) :
    ∀ t, t ≤ m → t + l.sum > m →
    ∃ k, k < l.length ∧
      streamChunks m t l = (l.take k, some "Download exceeded configured limit") ∧
      t + (l.take k).sum ≤ m ∧ t + (l.take (k + 1)).sum > m := by
  induction l with
  | nil =>
    intro t ht hsum
    simp at hsum
    omega
  | cons c rest ih =>
    intro t ht hsum
    by_cases hc : t + c > m
    · refine ⟨0, by simp, ?_, by simpa using ht, by simpa using hc⟩
      simp [streamChunks, hc]
    · push_neg at hc
      have hsum2 : (t + c) + rest.sum > m := by
        simp only [List.sum_cons] at hsum
        omega
      obtain ⟨k, hk, heq, hle, hgt⟩ := ih (t + c) hc hsum2
      refine ⟨k + 1, by simpa using Nat.succ_lt_succ hk, ?_, ?_, ?_⟩
      · have hstep : streamChunks m t (c :: rest) =
            (c :: (streamChunks m (t + c) rest).1,
              (streamChunks m (t + c) rest).2) := by
          have hcond : ¬ (t + c > m) := Nat.not_lt.mpr hc
          simp [streamChunks, hcond]
        rw [hstep, heq, List.take_succ_cons]
      · rw [List.take_succ_cons, List.sum_cons]
        omega
      · rw [List.take_succ_cons, List.sum_cons]
        omega

/-- C9: whatever the declared content length, a body whose cumulative size
crosses the configured ceiling makes the transfer fail on the first crossing
chunk; that chunk is never written, the bytes on disk stay within the ceiling,
and the destination file is not the complete body. -/
theorem streamResponseToFile_enforces_limit (m : Nat) (chunks : List Nat)
    (h : chunks.sum > m) :
    ∃ k, k < chunks.length ∧
      streamResponseToFile m chunks =
        (chunks.take k, some "Download exceeded configured limit") ∧
      (chunks.take k).sum ≤ m ∧ (chunks.take (k + 1)).sum > m ∧
      (streamResponseToFile m chunks).1.sum ≤ m ∧
      (streamResponseToFile m chunks).1 ≠ chunks := by
  obtain ⟨k, hk, heq, hle, hgt⟩ :=
    streamChunks_over m chunks 0 (Nat.zero_le m) (by simpa using h)
  have heq2 : streamResponseToFile m chunks =
      (chunks.take k, some "Download exceeded configured limit") := heq
  refine ⟨k, hk, heq2, by simpa using hle, by simpa using hgt, ?_, ?_⟩
  · rw [heq2]
    simpa using hle
  · rw [heq2]
    intro hcontra
    have hlen : (chunks.take k).length = chunks.length :=
      congrArg List.length hcontra
    rw [List.length_take] at hlen
    omega

/-- Witness for C9: a 5-byte ceiling against two 3-byte chunks; the second
chunk crosses the limit, is dropped, and the transfer errors out. -/
theorem streamResponseToFile_enforces_limit_witness :
    (streamResponseToFile 5 [3, 3]).2 =
      some "Download exceeded configured limit" ∧
    (streamResponseToFile 5 [3, 3]).1.sum ≤ 5 ∧
    (streamResponseToFile 5 [3, 3]).1 ≠ [3, 3] := by
  obtain ⟨k, _, heq, _, _, hsum, hne⟩ :=
    streamResponseToFile_enforces_limit 5 [3, 3] (by decide)
  exact ⟨by rw [heq], hsum, hne⟩

/-- C8: a response whose declared `content-length` parses to a value above
the configured ceiling is rejected before any body chunk is written. -/
theorem downloadRemote_rejects_declared_oversize (m : Nat)
    (resp : RemoteResponse) (n : Nat) (hlen : resp.contentLengthHeader = some n)
    (hover : n > m) :
    (downloadRemote m resp).writtenChunks = [] ∧
    (downloadRemote m resp).error.isSome := by
  cases hok : resp.ok with
  | false => simp [downloadRemote, hok]
  | true =>
    by_cases htype : matchesAllowedType (resp.contentType.getD "") = true
    · simp [downloadRemote, hok, htype, hlen, hover]
    · simp [downloadRemote, hok, htype]

/-- Witness for C8: ceiling 100, declared length 200, a body that would fit;
nothing is written and the call errors. -/
theorem downloadRemote_rejects_declared_oversize_witness :
    (downloadRemote 100
      { ok := true, contentType := some "video/mp4"
        contentLengthHeader := some 200, bodyChunks := [10] }).writtenChunks = [] ∧
    (downloadRemote 100
      { ok := true, contentType := some "video/mp4"
        contentLengthHeader := some 200, bodyChunks := [10] }).error.isSome := by
  exact downloadRemote_rejects_declared_oversize 100
    { ok := true, contentType := some "video/mp4"
      contentLengthHeader := some 200, bodyChunks := [10] } 200 rfl (by decide)

/-- C10: a response without a `content-type` header passes the allow-list
check (the test accepts the empty type), and the destination file gets the
default `.mp4` extension. -/
theorem downloadRemote_missing_content_type (m : Nat) (resp : RemoteResponse)
    (hok : resp.ok = true) (hct : resp.contentType = none) :
    matchesAllowedType (resp.contentType.getD "") = true ∧
    inferExtension (resp.contentType.getD "") = ".mp4" ∧
    (resp.contentLengthHeader = none →
      (downloadRemote m resp).extension = some ".mp4") := by
  rw [hct]
  refine ⟨rfl, rfl, fun hclen => ?_⟩
  simp [downloadRemote, hok, hct, hclen, downloadBody]
  rfl

/-- Witness for C10: an ok response with no headers at all. -/
theorem downloadRemote_missing_content_type_witness :
    matchesAllowedType ((none : Option String).getD "") = true ∧
    inferExtension ((none : Option String).getD "") = ".mp4" ∧
    (downloadRemote 100
      { ok := true, contentType := none
        contentLengthHeader := none, bodyChunks := [10] }).extension =
      some ".mp4" := by
  have h := downloadRemote_missing_content_type 100
    { ok := true, contentType := none
      contentLengthHeader := none, bodyChunks := [10] } rfl rfl
  exact ⟨h.1, h.2.1, h.2.2 rfl⟩

end Autoclipper
